import Mathlib

/-!
Verification development for the rust-raycaster repository.

The Rust source (src/map.rs, src/player.rs, src/vector.rs) is shallowly
embedded here.  `f32` arithmetic is idealised as exact rational arithmetic
(`ℚ`), except where IEEE-754 special values are observable: the DDA step
sizes can be `+∞` (division by a zero direction component), so ray lengths
are modelled by the extended type `ExtRat` below.  Machine-integer casts
(`as usize`, `as i32`), which truncate toward zero and saturate, are
modelled explicitly.  Fallible Rust functions returning
`Result<_, ParseError>` are modelled by `Option` (every error produced by
the embedded functions is `InvalidFormat`, so no information is lost); a
reachable `unwrap` panic is modelled by a dedicated constructor.
-/

/-- Truncation of a rational toward zero, the rounding used by Rust's
float-to-integer `as` casts. -/
def ratTrunc (q : ℚ) : Int := if q < 0 then -⌊-q⌋ else ⌊q⌋

/-- Largest value of `usize` (the sources target a 64-bit platform). -/
def USIZE_MAX : Int := 2 ^ 64 - 1

/-- Rust `f32 as usize`: truncate toward zero, saturating at `0` below and
`usize::MAX` above. -/
def rat_as_usize (q : ℚ) : Nat := (max (min (ratTrunc q) USIZE_MAX) 0).toNat

/-- Rust `f32 as i32`: truncate toward zero, saturating at the `i32`
bounds. -/
def rat_as_i32 (q : ℚ) : Int := max (min (ratTrunc q) (2 ^ 31 - 1)) (-(2 ^ 31))

/-- The `Map` struct of src/map.rs.  Tile codes are `u8` values, kept as
`Nat`.  Field order follows the source: name, width, height, tiles,
origin x, origin y, tile_size. -/
structure Map where
  name : String
  width : Nat
  height : Nat
  tiles : List Nat
  x : ℚ
  y : ℚ
  tile_size : ℚ

/-- `Map::get_tile` — row-major lookup `tiles[y * width + x]`.  The Rust
indexing panics out of bounds; the embedding returns the default `0`
there (all claims only evaluate it at in-bounds cells). -/
def Map.get_tile (m : Map) (x y : Nat) : Nat :=
  m.tiles.getD (y * m.width + x) 0

/-- `Map::to_map_coordinates` (src/map.rs lines 226-235): subtract the
origin, divide by `tile_size`, cast with `as usize`, and reject indices
`>= width` / `>= height`. -/
def Map.to_map_coordinates (m : Map) (x y : ℚ) : Option (Nat × Nat) :=
  let x := x - m.x
  let y := y - m.y
  let x := rat_as_usize (x / m.tile_size)
  let y := rat_as_usize (y / m.tile_size)
  if m.width ≤ x ∨ m.height ≤ y then none else some (x, y)

/-- Modelled from the spec: `in_bounds(world_x, world_y) -> bool` is
"true iff `to_map_coordinates` would return some".  The accessor
`Map::in_map` called by `Player::raycast` belongs to a map.rs revision
that is not part of src/. -/
def Map.in_map (m : Map) (x y : ℚ) : Bool :=
  (m.to_map_coordinates x y).isSome

/-! ## Map parser (src/map.rs) -/

/-- UTF-8 byte size of a character; Rust's `str::len` counts bytes. -/
def charUtf8Size (c : Char) : Nat :=
  if c.toNat ≤ 0x7F then 1
  else if c.toNat ≤ 0x7FF then 2
  else if c.toNat ≤ 0xFFFF then 3
  else 4

/-- UTF-8 byte length of a string, as a list of characters. -/
def utf8Len (l : List Char) : Nat := (l.map charUtf8Size).sum

/-- Whitespace trimming from the left, as in Rust `str::trim_start`. -/
def trimLeft : List Char → List Char
  | [] => []
  | c :: cs => if c.isWhitespace then trimLeft cs else c :: cs

/-- Rust `str::trim`: strip leading and trailing whitespace. -/
def trim (l : List Char) : List Char :=
  (trimLeft (trimLeft l).reverse).reverse

/-- Rust `str::splitn(2, '=')`: split at the first `'='`, if any.
`none` models the iterator yielding a single piece (no `'='` present);
`some (k, v)` models the two pieces around the first `'='`. -/
def splitOnce : List Char → Option (List Char × List Char)
  | [] => none
  | c :: cs =>
    if c = '=' then some ([], cs)
    else match splitOnce cs with
      | none => none
      | some (k, v) => some (c :: k, v)

/-- `parse_field` (src/map.rs lines 45-69).  `none` models
`Err(ParseError::InvalidFormat ..)` — the only error this function
produces.  Note the source checks `key.len() == 0 || value.len() == 0`
on the untrimmed pieces, and trims only on the success path. -/
def parse_field (field : List Char) : Option (List Char × List Char) :=
  if utf8Len field < 3 then none
  else
    match splitOnce field with
    | none => none
    | some (key, value) =>
      if utf8Len key = 0 ∨ utf8Len value = 0 then none
      else some (trim key, trim value)

/-- Maximal digit run of a list: the longest all-digit prefix and the
remainder. -/
def digitSpan : List Char → List Char × List Char
  | [] => ([], [])
  | c :: cs =>
    if c.isDigit then
      let (d, r) := digitSpan cs
      (c :: d, r)
    else ([], c :: cs)

/-- Attempt to match the regex `(\d+)x(\d+)` anchored at the head of the
list, returning the two capture groups.  Both `\d+` are greedy; since a
shorter first group would be followed by a digit rather than `'x'`, the
greedy match is the only possible one, so no backtracking is needed. -/
def matchSizeAt (l : List Char) : Option (List Char × List Char) :=
  let (d1, r1) := digitSpan l
  if d1 = [] then none
  else
    match r1 with
    | 'x' :: r2 =>
      let (d2, _) := digitSpan r2
      if d2 = [] then none else some (d1, d2)
    | _ => none

/-- Leftmost search of the UNANCHORED regex `(\d+)x(\d+)` over the whole
string, as performed by `Regex::captures` in `parse_size`: try each start
position from the left and return the first successful match's capture
groups. -/
def searchSize : List Char → Option (List Char × List Char)
  | [] => none
  | c :: cs =>
    match matchSizeAt (c :: cs) with
    | some r => some r
    | none => searchSize cs

/-- Numeric value of a digit string, as `str::parse` computes it. -/
def natOfDigits (l : List Char) : Nat :=
  l.foldl (fun acc c => acc * 10 + (c.toNat - 48)) 0

/-! ## Player (src/player.rs) -/

/-- The exact value of `std::f32::consts::PI` (bit pattern 0x40490FDB)
as a rational. -/
def PI32 : ℚ := 13176795 / 4194304

/-- The exact value of `std::f32::consts::TAU` (bit pattern 0x40C90FDB).
It equals `2 * PI32` exactly. -/
def TAU32 : ℚ := 13176795 / 2097152

/-- `PLAYER_RADIUS` from src/player.rs. -/
def PLAYER_RADIUS : ℚ := 10

/-- The `Player` struct: position and facing angle.  `f32` fields are
idealised as exact rationals. -/
structure Player where
  pos : ℚ × ℚ
  angle : ℚ

/-- `Player::rotate` (src/player.rs lines 26-36): add the delta, then
subtract a full turn if the result exceeds `PI`, then add a full turn if
the (possibly updated) result is below `-PI`. -/
def Player.rotate (p : Player) (delta : ℚ) : Player :=
  let a := p.angle + delta
  let a := if PI32 < a then a - TAU32 else a
  let a := if a < -PI32 then a + TAU32 else a
  { p with angle := a }

/-- The `x_rad` probe abscissa of `Player::move_collision_check`: the
candidate x offset outward by the player radius, with the sign chosen by
`rev ^ (angle.abs() < PI / 2)`. -/
def x_rad (p : Player) (x : ℚ) (rev : Bool) : ℚ :=
  x + (if Bool.xor rev (decide (|p.angle| < PI32 / 2)) then PLAYER_RADIUS else -PLAYER_RADIUS)

/-- The `y_rad` probe ordinate of `Player::move_collision_check`, with
the sign chosen by `rev ^ (angle > 0.0)`. -/
def y_rad (p : Player) (y : ℚ) (rev : Bool) : ℚ :=
  y + (if Bool.xor rev (decide (0 < p.angle)) then PLAYER_RADIUS else -PLAYER_RADIUS)

/-- `Player::move_collision_check` (src/player.rs lines 52-81): convert
the current position and the radius-inflated probe point to grid cells;
abort if either is out of bounds; otherwise accept the x (resp. y) update
iff the tile at `(new_cell.x, cur_cell.y)` (resp. `(cur_cell.x,
new_cell.y)`) is not the wall code 1. -/
def Player.move_collision_check (p : Player) (x y : ℚ) (m : Map) (rev : Bool) : Player :=
  let map_pos := m.to_map_coordinates p.pos.1 p.pos.2
  let new_map_pos := m.to_map_coordinates (x_rad p x rev) (y_rad p y rev)
  match map_pos, new_map_pos with
  | some mp, some nmp =>
    let px := if m.get_tile nmp.1 mp.2 ≠ 1 then x else p.pos.1
    let py := if m.get_tile mp.1 nmp.2 ≠ 1 then y else p.pos.2
    { p with pos := (px, py) }
  | _, _ => p

/-! ## DDA raycast (src/player.rs lines 86-159)

Ray lengths and step sizes are `f32` values that can be infinite: when a
direction component is zero the source's step-size formula divides by
zero, which in IEEE-754 arithmetic yields `±∞` (or NaN from `0/0`).
`ExtRat` is the rational line extended with these special values, with
IEEE comparison (`NaN` compares false) and arithmetic. -/

inductive ExtRat where
  | ninf
  | fin (q : ℚ)
  | inf
  | nan
deriving DecidableEq

/-- IEEE `<` on extended values: any comparison against NaN is false. -/
def ExtRat.lt : ExtRat → ExtRat → Bool
  | .nan, _ => false
  | _, .nan => false
  | .ninf, .ninf => false
  | .ninf, _ => true
  | .fin _, .ninf => false
  | .fin q, .fin r => decide (q < r)
  | .fin _, .inf => true
  | .inf, _ => false

/-- IEEE addition on extended values: `∞ + (-∞) = NaN`. -/
def ExtRat.add : ExtRat → ExtRat → ExtRat
  | .nan, _ => .nan
  | _, .nan => .nan
  | .inf, .ninf => .nan
  | .ninf, .inf => .nan
  | .inf, _ => .inf
  | _, .inf => .inf
  | .ninf, _ => .ninf
  | _, .ninf => .ninf
  | .fin q, .fin r => .fin (q + r)

/-- IEEE multiplication of a finite rational by an extended value:
`0 * ±∞ = NaN`. -/
def ExtRat.qmul (q : ℚ) : ExtRat → ExtRat
  | .nan => .nan
  | .fin r => .fin (q * r)
  | .inf => if 0 < q then .inf else if q < 0 then .ninf else .nan
  | .ninf => if 0 < q then .ninf else if q < 0 then .inf else .nan

/-- Square root on ℚ, exact when numerator and denominator are perfect
squares.  The DDA step-size radicand `1 + (num/den)^2` is `1` for every
axis-aligned direction — the only case the claims evaluate — so no
irrational square root is ever taken; other radicands are outside the
rational embedding. -/
def ratSqrt (q : ℚ) : ℚ := (Nat.sqrt q.num.toNat : ℚ) / (Nat.sqrt q.den : ℚ)

/-- One per-axis step size `(1.0 + (num/den).powi(2)).sqrt()` of the DDA
(src/player.rs lines 95-98).  When `den = 0`, IEEE division gives
`num/0 = ±∞` (so the whole expression is `+∞`) unless `num = 0` too, in
which case `0/0 = NaN` propagates. -/
def hyp_step (num den : ℚ) : ExtRat :=
  if den = 0 then (if num = 0 then .nan else .inf)
  else .fin (ratSqrt (1 + (num / den) ^ 2))

/-- Outcome of the DDA while-loop: a wall hit (with the accumulated
distance in tile units, the grid cell reached, and the side flag) or an
exit from the map. -/
inductive LoopOut where
  | hit (dist : ExtRat) (cell : Int × Int) (side : Bool)
  | out
deriving DecidableEq

/-- One iteration of the DDA loop body (src/player.rs lines 126-136):
advance along x when `ray_len.x < ray_len.y`, else along y.  Returns the
new grid cell, the new accumulated lengths, the side flag, and the
distance recorded for this step (the freshly incremented length). -/
def dda_iter (mp : Int × Int) (rl : ExtRat × ExtRat) (ss : ExtRat × ExtRat)
    (st : Int × Int) : (Int × Int) × (ExtRat × ExtRat) × Bool × ExtRat :=
  if ExtRat.lt rl.1 rl.2 then
    ((mp.1 + st.1, mp.2), (rl.1.add ss.1, rl.2), false, rl.1.add ss.1)
  else
    ((mp.1, mp.2 + st.2), (rl.1, rl.2.add ss.2), true, rl.2.add ss.2)

/-- The DDA while-loop (src/player.rs lines 125-147), fuelled: after each
step, leave the loop with `.out` if the new cell is outside
`[0,width) × [0,height)`, with a `.hit` if its tile is the wall code 1,
and otherwise continue.  `none` means the fuel ran out; the termination
theorems below show `width + height` fuel always suffices from an
in-bounds cell, so the fuelled function agrees with the source's
unbounded loop at every fuel used in this file. -/
def dda_loop (m : Map) (ss : ExtRat × ExtRat) (st : Int × Int) :
    Nat → Int × Int → ExtRat × ExtRat → ExtRat → Bool → Option LoopOut
  | 0, _, _, _, _ => none
  | fuel + 1, mp, rl, _dist, _side =>
    let it := dda_iter mp rl ss st
    let mp' := it.1
    if mp'.1 < 0 ∨ (m.width : Int) ≤ mp'.1 ∨ mp'.2 < 0 ∨ (m.height : Int) ≤ mp'.2 then
      some .out
    else if m.get_tile mp'.1.toNat mp'.2.toNat = 1 then
      some (.hit it.2.2.2 mp' it.2.2.1)
    else
      dda_loop m ss st fuel mp' it.2.1 it.2.2.2 it.2.2.1

/-- The `RayCastResult` enum of src/player.rs.  `Hit` carries the world
distance (an `f32`, hence an extended rational), the hit cell and the
side flag. -/
inductive RayCastResult where
  | Hit (distance : ExtRat) (cell : Nat × Nat) (side : Bool)
  | NoHit
deriving DecidableEq

/-- `Player::raycast` (src/player.rs lines 86-159).  The direction pair
stands for `(cos angle, sin angle)` of the ray angle
`self.angle + offset`; it is supplied directly because trigonometric
evaluation is outside the rational embedding (the claims instantiate the
four cardinal directions, whose sines and cosines are exactly 0 and ±1).
`map_pos.x as usize` in the hit branch is `Int.toNat` — the cell is
already known to be in bounds there. -/
def Player.raycast (p : Player) (m : Map) (direction : ℚ × ℚ) : RayCastResult :=
  if m.in_map p.pos.1 p.pos.2 then
    let pos : ℚ × ℚ := (p.pos.1 / m.tile_size, p.pos.2 / m.tile_size)
    let step_size : ExtRat × ExtRat :=
      (hyp_step direction.2 direction.1, hyp_step direction.1 direction.2)
    let mp : Int × Int := (rat_as_i32 pos.1, rat_as_i32 pos.2)
    let ray_len_x :=
      if direction.1 < 0 then ExtRat.qmul (pos.1 - (mp.1 : ℚ)) step_size.1
      else ExtRat.qmul (((mp.1 : ℚ) + 1) - pos.1) step_size.1
    let ray_len_y :=
      if direction.2 < 0 then ExtRat.qmul (pos.2 - (mp.2 : ℚ)) step_size.2
      else ExtRat.qmul (((mp.2 : ℚ) + 1) - pos.2) step_size.2
    let step : Int × Int :=
      (if direction.1 < 0 then -1 else 1, if direction.2 < 0 then -1 else 1)
    match dda_loop m step_size step (m.width + m.height) mp (ray_len_x, ray_len_y)
        (.fin 0) false with
    | some (.hit dist cell side) =>
      .Hit (ExtRat.qmul m.tile_size dist) (cell.1.toNat, cell.2.toNat) side
    | some .out => .NoHit
    | none => .NoHit
  else .NoHit

/-- Outcome of `parse_size`: success, `Err(InvalidFormat ..)`, or a
panic (the source calls `.parse::<usize>().unwrap()` on each capture
group, which aborts the process when the digits overflow `usize`). -/
inductive SizeResult where
  | ok (w h : Nat)
  | invalidFormat
  | panicked
deriving DecidableEq

/-- `parse_size` (src/map.rs lines 99-112).  The regex is unanchored, so
`captures` succeeds whenever `(\d+)x(\d+)` matches anywhere in the
input.  The width is unwrapped before the height, but both overflow
outcomes are the same abort, modelled as `.panicked`. -/
def parse_size (s : List Char) : SizeResult :=
  match searchSize s with
  | none => .invalidFormat
  | some (d1, d2) =>
    if natOfDigits d1 ≤ (2 ^ 64 - 1 : Nat) ∧ natOfDigits d2 ≤ (2 ^ 64 - 1 : Nat) then
      .ok (natOfDigits d1) (natOfDigits d2)
    else .panicked

/-! ## Concrete fixtures used by the claim instances -/

/-- A 5×5 map consisting of a single enclosing wall ring with an open
3×3 interior, origin (0,0), with a chosen tile size. -/
def ringMap (t : ℚ) : Map :=
  ⟨"ring", 5, 5, [1,1,1,1,1, 1,0,0,0,1, 1,0,0,0,1, 1,0,0,0,1, 1,1,1,1,1], 0, 0, t⟩

/-- A 3×3 map, open except for a wall at cell (0,1), used to observe the
DDA tie-break. -/
def tieMap : Map := ⟨"tie", 3, 3, [0,0,0, 1,0,0, 0,0,0], 0, 0, 1⟩

/-- A fully open 3×3 map with unit tiles and origin (0,0). -/
def smallMap : Map := ⟨"small", 3, 3, [0,0,0, 0,0,0, 0,0,0], 0, 0, 1⟩

/-- The number of loop iterations after which the DDA exits the map on
the x axis, from column `x` stepping by `sx` each x-advance. -/
def exitStepsX (w : Nat) (sx : Int) (x : Int) : Nat :=
  (if sx < 0 then x + 1 else (w : Int) - x).toNat

/-! ## Theorems -/

-- Basic facts about the casts.

theorem ratTrunc_neg_nonpos (q : ℚ) (h : q < 0) : ratTrunc q ≤ 0 := by
  unfold ratTrunc
  rw [if_pos h]
  have h0 : (0 : ℚ) ≤ -q := by linarith
  have : (0 : Int) ≤ ⌊-q⌋ := Int.floor_nonneg.mpr h0
  omega

theorem rat_as_usize_neg (q : ℚ) (h : q < 0) : rat_as_usize q = 0 := by
  unfold rat_as_usize
  have h1 := ratTrunc_neg_nonpos q h
  have h2 : (0 : Int) ≤ USIZE_MAX := by unfold USIZE_MAX; omega
  omega

/-- C4: `parse_size` accepts `"10x10"` and rejects `"10x"` and `"x10"`,
but — because the regex `(\d+)x(\d+)` is unanchored — it also ACCEPTS
`"10x10x10"` as `(10, 10)` instead of failing with `InvalidFormat`,
contradicting the claim and the repository's own test
`test_parse_size_invalid`. -/
theorem parse_size_eval :
    parse_size ("10x10".toList) = .ok 10 10 ∧
    parse_size ("10x".toList) = .invalidFormat ∧
    parse_size ("x10".toList) = .invalidFormat ∧
    parse_size ("10x10x10".toList) = .ok 10 10 := by decide

/-- C10: on a size value whose first digit group exceeds `usize::MAX`,
`parse_size` reaches the `.unwrap()` on the failed integer parse and
panics instead of returning a `ParseError`. -/
theorem parse_size_overflow_panics :
    parse_size ("99999999999999999999x1".toList) = .panicked ∧
    (2 ^ 64 - 1 : Nat) < natOfDigits ("99999999999999999999".toList) := by decide

/-- C3 counterexample: on a 3×3 map with unit tiles and origin (0,0),
the world coordinate x = -5 has a negative pre-truncation cell value,
yet `to_map_coordinates` returns `some (0, 1)` — the `as usize` cast
saturates negatives to 0 — rather than `none` as the claim requires. -/
theorem to_map_coordinates_negative_counterexample :
    ((-5 : ℚ) - smallMap.x) / smallMap.tile_size < 0 ∧
    smallMap.to_map_coordinates (-5) 1 = some (0, 1) := by
  constructor
  · norm_num [smallMap]
  · norm_num [smallMap, Map.to_map_coordinates, rat_as_usize, ratTrunc, USIZE_MAX]

/-- C3 (amended): `to_map_coordinates` returns `none` exactly when a
saturating-truncated cell index reaches `width`/`height`; a NEGATIVE
pre-truncation value saturates to cell index 0 (Rust `as usize`), so a
negative world coordinate whose other axis is in range yields `some`
with column 0, not `none`. -/
theorem to_map_coordinates_amended (m : Map) (x y : ℚ) :
    (m.width ≤ rat_as_usize ((x - m.x) / m.tile_size) ∨
        m.height ≤ rat_as_usize ((y - m.y) / m.tile_size) →
      m.to_map_coordinates x y = none) ∧
    ((x - m.x) / m.tile_size < 0 → 0 < m.width →
      rat_as_usize ((y - m.y) / m.tile_size) < m.height →
      m.to_map_coordinates x y = some (0, rat_as_usize ((y - m.y) / m.tile_size))) := by
  constructor
  · intro h
    simp only [Map.to_map_coordinates]
    rw [if_pos h]
  · intro hneg hw hy
    simp only [Map.to_map_coordinates]
    rw [rat_as_usize_neg _ hneg, if_neg]
    omega

/-- Witness for the amended C3 theorem at concrete inputs. -/
theorem to_map_coordinates_amended_witness :
    smallMap.to_map_coordinates (-5) 1 = some (0, 1) ∧
    smallMap.to_map_coordinates 99 1 = none := by
  have hy : rat_as_usize ((1 - smallMap.y) / smallMap.tile_size) = 1 := by
    norm_num [smallMap, rat_as_usize, ratTrunc, USIZE_MAX]
  constructor
  · have h := (to_map_coordinates_amended smallMap (-5) 1).2
      (by norm_num [smallMap]) (by norm_num [smallMap]) (by rw [hy]; norm_num [smallMap])
    rw [h, hy]
  · exact (to_map_coordinates_amended smallMap 99 1).1
      (Or.inl (by norm_num [smallMap, rat_as_usize, ratTrunc, USIZE_MAX]))

/-- C7 counterexample: from angle 0 (inside `(-π, π]`) a rotation by
`-π` (whose magnitude is below a full turn) produces exactly `-π`, which
is OUTSIDE the claimed half-open range `(-π, π]`. -/
theorem rotate_boundary_counterexample :
    (-PI32 < (0 : ℚ) ∧ (0 : ℚ) ≤ PI32 ∧ |(-PI32 : ℚ)| < TAU32) ∧
    ((Player.mk (0, 0) 0).rotate (-PI32)).angle = -PI32 ∧
    ¬ (-PI32 < ((Player.mk (0, 0) 0).rotate (-PI32)).angle) := by
  refine ⟨⟨by norm_num [PI32], by norm_num [PI32], ?_⟩, ?_, ?_⟩
  · rw [abs_lt]
    constructor <;> norm_num [PI32, TAU32]
  · norm_num [Player.rotate, PI32, TAU32]
  · norm_num [Player.rotate, PI32, TAU32]

/-- C7 (amended): if the angle lies in the CLOSED range `[-π, π]` — in
fact any starting angle in `(-π, π]` — and the delta's magnitude is
below one full turn, the single-step normalization of `rotate` lands in
the closed range `[-π, π]`; the lower endpoint `-π` is attainable, so
the half-open range of the claim does not hold, but no further
normalization step is ever needed. -/
theorem rotate_range_closed (p : Player) (delta : ℚ)
    (h1 : -PI32 ≤ p.angle) (h2 : p.angle ≤ PI32) (h3 : |delta| < TAU32) :
    -PI32 ≤ (p.rotate delta).angle ∧ (p.rotate delta).angle ≤ PI32 := by
  obtain ⟨h3a, h3b⟩ := abs_lt.mp h3
  have hpi : (0 : ℚ) < PI32 := by norm_num [PI32]
  have htau : TAU32 = 2 * PI32 := by norm_num [PI32, TAU32]
  simp only [Player.rotate]
  split_ifs with ha hb hb <;> constructor <;> linarith

/-- Witness for the amended C7 theorem at a concrete rotation. -/
theorem rotate_range_closed_witness :
    -PI32 ≤ ((Player.mk (0, 0) 0).rotate 1).angle ∧
    ((Player.mk (0, 0) 0).rotate 1).angle ≤ PI32 :=
  rotate_range_closed (Player.mk (0, 0) 0) 1 (by norm_num [PI32]) (by norm_num [PI32])
    (by rw [abs_lt]; constructor <;> norm_num [TAU32])

/-- C2 counterexample: with both accumulated lengths equal (to 1), the
strict `<` comparison is false, so the loop advances the Y axis — the
very first step moves the cell from (0,0) to (0,1) and reports the hit
there with `side = true`, not the X advance to (1,0) with `side = false`
that the claim asserts. -/
theorem dda_tie_counterexample :
    ExtRat.lt (.fin 1) (.fin 1) = false ∧
    dda_loop tieMap (.fin 1, .fin 1) (1, 1) 5 (0, 0) (.fin 1, .fin 1) (.fin 0) false =
      some (.hit (.fin 2) (0, 1) true) := by
  constructor
  · norm_num [ExtRat.lt]
  · norm_num [dda_loop, dda_iter, ExtRat.lt, ExtRat.add, tieMap, Map.get_tile]

/-- C2 (amended): whenever the accumulated X length exactly equals the
accumulated Y length, the strict `<` comparison on X's accumulated
length is false, so the loop body advances the Y axis: the Y grid cell
is incremented by the Y unit step, Y's length grows by Y's step size,
and `side` is set to `true`. -/
theorem dda_iter_tie_selects_y (mp : Int × Int) (e : ExtRat) (ss : ExtRat × ExtRat)
    (st : Int × Int) :
    ExtRat.lt e e = false ∧
    dda_iter mp (e, e) ss st =
      ((mp.1, mp.2 + st.2), (e, e.add ss.2), true, e.add ss.2) := by
  have hlt : ExtRat.lt e e = false := by
    cases e <;> simp [ExtRat.lt]
  exact ⟨hlt, by simp [dda_iter, hlt]⟩

/-- C1: raycasts from the center of the ring map (tile size 2, so the
center is world (5,5) and half the interior span is 3 world units) along
the four cardinal directions.  Cells and side flags are as the claim
states, but every reported distance is `2.5 * tile_size = 5`, NOT the
claimed half interior span `1.5 * tile_size = 3`: the loop records
`ray_len` AFTER adding the step size, one full grid step beyond the wall
crossing, contradicting the claim and the function's own doc comment
("return the distance to the nearest wall"). -/
theorem raycast_ring_center_eval :
    (Player.mk (5, 5) 0).raycast (ringMap 2) (1, 0) = .Hit (.fin 5) (4, 2) false ∧
    (Player.mk (5, 5) 0).raycast (ringMap 2) (-1, 0) = .Hit (.fin 5) (0, 2) false ∧
    (Player.mk (5, 5) 0).raycast (ringMap 2) (0, 1) = .Hit (.fin 5) (2, 4) true ∧
    (Player.mk (5, 5) 0).raycast (ringMap 2) (0, -1) = .Hit (.fin 5) (2, 0) true := by
  refine ⟨?_, ?_, ?_, ?_⟩ <;>
    · norm_num [Player.raycast, ringMap, Map.in_map, Map.to_map_coordinates, rat_as_usize,
        rat_as_i32, ratTrunc, USIZE_MAX, hyp_step, ratSqrt, dda_loop, dda_iter, ExtRat.lt,
        ExtRat.add, ExtRat.qmul, Map.get_tile]
      try simp
      try norm_num

/-- C6: whenever both the current position and the radius-inflated probe
point convert to in-bounds grid cells, the X coordinate is updated to
the candidate iff the tile at `(new_cell.x, cur_cell.y)` is not the wall
code 1, and independently the Y coordinate is updated iff the tile at
`(cur_cell.x, new_cell.y)` is not the wall code 1; a blocked axis keeps
its old coordinate. -/
theorem move_collision_check_axis_independent (p : Player) (x y : ℚ) (m : Map) (rev : Bool)
    (mp nmp : Nat × Nat)
    (h1 : m.to_map_coordinates p.pos.1 p.pos.2 = some mp)
    (h2 : m.to_map_coordinates (x_rad p x rev) (y_rad p y rev) = some nmp) :
    (m.get_tile nmp.1 mp.2 ≠ 1 → (p.move_collision_check x y m rev).pos.1 = x) ∧
    (m.get_tile nmp.1 mp.2 = 1 → (p.move_collision_check x y m rev).pos.1 = p.pos.1) ∧
    (m.get_tile mp.1 nmp.2 ≠ 1 → (p.move_collision_check x y m rev).pos.2 = y) ∧
    (m.get_tile mp.1 nmp.2 = 1 → (p.move_collision_check x y m rev).pos.2 = p.pos.2) := by
  simp only [Player.move_collision_check, h1, h2]
  refine ⟨?_, ?_, ?_, ?_⟩ <;> intro h <;> simp [h]

/-- Witness for the C6 theorem: on the ring map with tile size 64, a
forward move from the interior center with both probe cells open updates
both coordinates. -/
theorem move_collision_check_witness :
    ((Player.mk (160, 160) 0).move_collision_check 170 165 (ringMap 64) false).pos.1 = 170 ∧
    ((Player.mk (160, 160) 0).move_collision_check 170 165 (ringMap 64) false).pos.2 = 165 := by
  have h1 : (ringMap 64).to_map_coordinates (Player.mk (160, 160) 0).pos.1
      (Player.mk (160, 160) 0).pos.2 = some (2, 2) := by
    norm_num [ringMap, Map.to_map_coordinates, rat_as_usize, ratTrunc, USIZE_MAX]
    try simp
  have h2 : (ringMap 64).to_map_coordinates (x_rad (Player.mk (160, 160) 0) 170 false)
      (y_rad (Player.mk (160, 160) 0) 165 false) = some (2, 2) := by
    norm_num [ringMap, Map.to_map_coordinates, rat_as_usize, ratTrunc, USIZE_MAX,
      x_rad, y_rad, PI32, PLAYER_RADIUS]
    try simp
  have hmain := move_collision_check_axis_independent (Player.mk (160, 160) 0) 170 165
    (ringMap 64) false (2, 2) (2, 2) h1 h2
  exact ⟨hmain.1 (by decide), hmain.2.2.1 (by decide)⟩

/-- Every `.hit` produced by the DDA loop carries an in-bounds cell
whose tile is the wall code 1: the hit branch is guarded by the bounds
check and the wall test. -/
theorem dda_loop_hit_inv (m : Map) (ss : ExtRat × ExtRat) (st : Int × Int) :
    ∀ (fuel : Nat) (mp : Int × Int) (rl : ExtRat × ExtRat) (dist : ExtRat) (side : Bool)
      (d : ExtRat) (c : Int × Int) (s : Bool),
      dda_loop m ss st fuel mp rl dist side = some (.hit d c s) →
      0 ≤ c.1 ∧ c.1 < (m.width : Int) ∧ 0 ≤ c.2 ∧ c.2 < (m.height : Int) ∧
        m.get_tile c.1.toNat c.2.toNat = 1 := by
  intro fuel
  induction fuel with
  | zero =>
    intro mp rl dist side d c s h
    simp [dda_loop] at h
  | succ n ih =>
    intro mp rl dist side d c s h
    rw [dda_loop] at h
    split_ifs at h with hout hwall
    · simp at h
    · simp only [Option.some.injEq, LoopOut.hit.injEq] at h
      obtain ⟨hd, hc, hs⟩ := h
      push_neg at hout
      subst hc
      exact ⟨hout.1, hout.2.1, hout.2.2.1, hout.2.2.2, hwall⟩
    · exact ih _ _ _ _ _ _ _ h

/-- C9: every `Hit` returned by `raycast` carries a cell inside
`[0,width) × [0,height)` whose map tile is the wall code 1. -/
theorem raycast_hit_in_bounds_wall (p : Player) (m : Map) (direction : ℚ × ℚ)
    (d : ExtRat) (c : Nat × Nat) (s : Bool)
    (h : p.raycast m direction = .Hit d c s) :
    c.1 < m.width ∧ c.2 < m.height ∧ m.get_tile c.1 c.2 = 1 := by
  simp only [Player.raycast] at h
  cases hin : m.in_map p.pos.1 p.pos.2 with
  | false => rw [hin] at h; simp at h
  | true =>
    rw [hin] at h
    simp only [if_true, eq_self_iff_true, if_pos] at h
    split at h
    · rename_i dist cell side heq
      have hb := dda_loop_hit_inv m _ _ _ _ _ _ _ _ _ _ heq
      simp only [RayCastResult.Hit.injEq] at h
      obtain ⟨hd, hc, hs⟩ := h
      subst hc
      refine ⟨?_, ?_, hb.2.2.2.2⟩ <;> omega
    · simp at h
    · simp at h

/-- Witness for the C9 theorem: the east raycast from the ring-map
center hits cell (4,2), which is in bounds and a wall. -/
theorem raycast_hit_in_bounds_wall_witness :
    (4 : Nat) < (ringMap 2).width ∧ (2 : Nat) < (ringMap 2).height ∧
      (ringMap 2).get_tile 4 2 = 1 :=
  raycast_hit_in_bounds_wall (Player.mk (5, 5) 0) (ringMap 2) (1, 0) (.fin 5) (4, 2) false
    (by norm_num [Player.raycast, ringMap, Map.in_map, Map.to_map_coordinates, rat_as_usize,
          rat_as_i32, ratTrunc, USIZE_MAX, hyp_step, ratSqrt, dda_loop, dda_iter, ExtRat.lt,
          ExtRat.add, ExtRat.qmul, Map.get_tile]
        try simp
        try norm_num)

/-- Unfolding of one loop iteration when the X axis is selected. -/
theorem dda_loop_succ_x (m : Map) (ss : ExtRat × ExtRat) (st : Int × Int) (n : Nat)
    (mp : Int × Int) (rl : ExtRat × ExtRat) (dist : ExtRat) (side : Bool)
    (h : ExtRat.lt rl.1 rl.2 = true) :
    dda_loop m ss st (n + 1) mp rl dist side =
      if mp.1 + st.1 < 0 ∨ (m.width : Int) ≤ mp.1 + st.1 ∨ mp.2 < 0 ∨
          (m.height : Int) ≤ mp.2 then
        some .out
      else if m.get_tile (mp.1 + st.1).toNat mp.2.toNat = 1 then
        some (.hit (rl.1.add ss.1) (mp.1 + st.1, mp.2) false)
      else dda_loop m ss st n (mp.1 + st.1, mp.2) (rl.1.add ss.1, rl.2) (rl.1.add ss.1) false := by
  rw [dda_loop]
  simp [dda_iter, h]

/-- Unfolding of one loop iteration when the Y axis is selected. -/
theorem dda_loop_succ_y (m : Map) (ss : ExtRat × ExtRat) (st : Int × Int) (n : Nat)
    (mp : Int × Int) (rl : ExtRat × ExtRat) (dist : ExtRat) (side : Bool)
    (h : ExtRat.lt rl.1 rl.2 = false) :
    dda_loop m ss st (n + 1) mp rl dist side =
      if mp.1 < 0 ∨ (m.width : Int) ≤ mp.1 ∨ mp.2 + st.2 < 0 ∨
          (m.height : Int) ≤ mp.2 + st.2 then
        some .out
      else if m.get_tile mp.1.toNat (mp.2 + st.2).toNat = 1 then
        some (.hit (rl.2.add ss.2) (mp.1, mp.2 + st.2) true)
      else dda_loop m ss st n (mp.1, mp.2 + st.2) (rl.1, rl.2.add ss.2) (rl.2.add ss.2) true := by
  rw [dda_loop]
  simp [dda_iter, h]

/-- The DDA loop terminates once the remaining fuel covers the number of
steps each axis can still take before leaving the grid. -/
theorem dda_loop_term (m : Map) (ss : ExtRat × ExtRat) (st : Int × Int)
    (hst1 : st.1 = 1 ∨ st.1 = -1) (hst2 : st.2 = 1 ∨ st.2 = -1) :
    ∀ (fuel : Nat) (mp : Int × Int) (rl : ExtRat × ExtRat) (dist : ExtRat) (side : Bool),
      0 ≤ mp.1 → mp.1 < (m.width : Int) → 0 ≤ mp.2 → mp.2 < (m.height : Int) →
      exitStepsX m.width st.1 mp.1 + exitStepsX m.height st.2 mp.2 ≤ fuel + 1 →
      dda_loop m ss st fuel mp rl dist side ≠ none := by
  intro fuel
  induction fuel with
  | zero =>
    intro mp rl dist side hx0 hx1 hy0 hy1 hb
    exfalso
    rcases hst1 with h1 | h1 <;> rcases hst2 with h2 | h2 <;>
      simp only [exitStepsX, h1, h2] at hb <;> split_ifs at hb <;> omega
  | succ n ih =>
    intro mp rl dist side hx0 hx1 hy0 hy1 hb
    cases hlt : ExtRat.lt rl.1 rl.2 with
    | true =>
      rw [dda_loop_succ_x m ss st n mp rl dist side hlt]
      split_ifs with hout hwall
      · simp
      · simp
      · push_neg at hout
        obtain ⟨o1, o2, o3, o4⟩ := hout
        refine ih (mp.1 + st.1, mp.2) (rl.1.add ss.1, rl.2) (rl.1.add ss.1) false
          o1 o2 o3 o4 ?_
        rcases hst1 with h1 | h1 <;> rcases hst2 with h2 | h2 <;>
          simp only [exitStepsX, h1, h2] at hb ⊢ <;> split_ifs at hb ⊢ <;> omega
    | false =>
      rw [dda_loop_succ_y m ss st n mp rl dist side hlt]
      split_ifs with hout hwall
      · simp
      · simp
      · push_neg at hout
        obtain ⟨o1, o2, o3, o4⟩ := hout
        refine ih (mp.1, mp.2 + st.2) (rl.1, rl.2.add ss.2) (rl.2.add ss.2) true
          o1 o2 o3 o4 ?_
        rcases hst1 with h1 | h1 <;> rcases hst2 with h2 | h2 <;>
          simp only [exitStepsX, h1, h2] at hb ⊢ <;> split_ifs at hb ⊢ <;> omega

/-- C8: from any in-bounds starting cell, fuel `width + height` is
enough for the DDA loop to reach a `Hit` or an out-of-map exit — the
loop never takes more than `width + height` iterations. -/
theorem dda_loop_fuel_sufficient (m : Map) (ss : ExtRat × ExtRat) (st : Int × Int)
    (hst1 : st.1 = 1 ∨ st.1 = -1) (hst2 : st.2 = 1 ∨ st.2 = -1)
    (mp : Int × Int) (rl : ExtRat × ExtRat) (dist : ExtRat) (side : Bool)
    (hx0 : 0 ≤ mp.1) (hx1 : mp.1 < (m.width : Int))
    (hy0 : 0 ≤ mp.2) (hy1 : mp.2 < (m.height : Int)) :
    dda_loop m ss st (m.width + m.height) mp rl dist side ≠ none := by
  apply dda_loop_term m ss st hst1 hst2 _ mp rl dist side hx0 hx1 hy0 hy1
  rcases hst1 with h1 | h1 <;> rcases hst2 with h2 | h2 <;>
    simp only [exitStepsX, h1, h2] <;> norm_num <;> omega

/-- Witness for the C8 theorem on a concrete 3×3 map and ray state. -/
theorem dda_loop_fuel_sufficient_witness :
    dda_loop smallMap (.fin 1, .fin 1) (1, 1) (3 + 3) (1, 1) (.fin 1, .fin 1)
      (.fin 0) false ≠ none := by
  have h := dda_loop_fuel_sufficient smallMap (.fin 1, .fin 1) (1, 1) (Or.inl rfl)
    (Or.inl rfl) (1, 1) (.fin 1, .fin 1) (.fin 0) false (by norm_num)
    (by norm_num [smallMap]) (by norm_num) (by norm_num [smallMap])
  simpa [smallMap] using h

-- Lemmas about `splitOnce` and UTF-8 lengths, used by the `parse_field`
-- characterization.

theorem charUtf8Size_pos (c : Char) : 1 ≤ charUtf8Size c := by
  unfold charUtf8Size
  split_ifs <;> norm_num

theorem utf8Len_eq_zero (l : List Char) : utf8Len l = 0 ↔ l = [] := by
  cases l with
  | nil => simp [utf8Len]
  | cons c cs =>
    have := charUtf8Size_pos c
    simp only [utf8Len, List.map_cons, List.sum_cons, List.cons_ne_nil, iff_false]
    omega

theorem splitOnce_eq_none (l : List Char) : splitOnce l = none ↔ '=' ∉ l := by
  induction l with
  | nil => simp [splitOnce]
  | cons c cs ih =>
    rw [splitOnce]
    rcases eq_or_ne c '=' with hc | hc
    · subst hc
      simp
    · rw [if_neg hc, List.mem_cons]
      cases h : splitOnce cs with
      | none =>
        have hcs := ih.mp h
        simp only [h]
        constructor
        · intro _ hmem
          rcases hmem with hmem | hmem
          · exact hc hmem.symm
          · exact hcs hmem
        · intro _
          trivial
      | some kv =>
        obtain ⟨k, v⟩ := kv
        simp only [h]
        constructor
        · intro hcontra
          exact Option.noConfusion hcontra
        · intro hmem
          exfalso
          obtain ⟨hne, hnin⟩ := not_or.mp hmem
          rw [ih.mpr hnin] at h
          cases h

theorem splitOnce_append (k v : List Char) (hnin : '=' ∉ k) :
    splitOnce (k ++ '=' :: v) = some (k, v) := by
  induction k with
  | nil => simp [splitOnce]
  | cons c cs ih =>
    rw [List.cons_append, splitOnce]
    have hc : ¬ c = '=' := by
      intro hc
      exact hnin (by rw [hc]; exact List.mem_cons_self _ _)
    rw [if_neg hc]
    have hcs : '=' ∉ cs := fun hm => hnin (List.mem_cons_of_mem _ hm)
    simp [ih hcs]

theorem splitOnce_some (l : List Char) :
    ∀ k v, splitOnce l = some (k, v) → l = k ++ '=' :: v ∧ '=' ∉ k := by
  induction l with
  | nil =>
    intro k v h
    simp [splitOnce] at h
  | cons c cs ih =>
    intro k v h
    rw [splitOnce] at h
    by_cases hc : c = '='
    · rw [if_pos hc] at h
      simp only [Option.some.injEq, Prod.mk.injEq] at h
      obtain ⟨hk, hv⟩ := h
      subst hk
      subst hv
      subst hc
      exact ⟨rfl, by simp⟩
    · rw [if_neg hc] at h
      cases hsc : splitOnce cs with
      | none =>
        rw [hsc] at h
        simp at h
      | some kv =>
        obtain ⟨k', v'⟩ := kv
        rw [hsc] at h
        simp only [Option.some.injEq, Prod.mk.injEq] at h
        obtain ⟨hk, hv⟩ := h
        obtain ⟨hl, hm⟩ := ih k' v' hsc
        subst hk
        subst hv
        subst hl
        refine ⟨by simp, ?_⟩
        intro hmem
        rcases List.mem_cons.mp hmem with hh | hh
        · exact hc hh.symm
        · exact hm hh

/-- C5 counterexample: the line `"  =  "` has a key side consisting only
of whitespace (its trimmed form is empty), yet `parse_field` SUCCEEDS,
returning the pair of empty trimmed sides — the source checks emptiness
of the two sides before trimming, so a whitespace-only side passes. -/
theorem parse_field_whitespace_counterexample :
    parse_field ("  =  ".toList) = some ([], []) ∧ trim ("  ".toList) = [] := by decide

/-- C5 (amended): `parse_field` fails exactly when the line's UTF-8 byte
length is below 3, it lacks an `'='`, or the key or value side is empty
BEFORE trimming (the line starts with `'='`, or its first `'='` is its
last character); on every other line it returns both sides trimmed —
trimmed sides may therefore be empty when a side is all whitespace. -/
theorem parse_field_characterization (l : List Char) :
    (parse_field l = none ↔
      utf8Len l < 3 ∨ '=' ∉ l ∨ l.head? = some '=' ∨ ∃ k, '=' ∉ k ∧ l = k ++ ['=']) ∧
    (∀ k v, '=' ∉ k → k ≠ [] → v ≠ [] → l = k ++ '=' :: v → 3 ≤ utf8Len l →
      parse_field l = some (trim k, trim v)) := by
  constructor
  · by_cases hlen : utf8Len l < 3
    · simp [parse_field, hlen]
    · rw [parse_field, if_neg hlen]
      cases hs : splitOnce l with
      | none =>
        have hnin := (splitOnce_eq_none l).mp hs
        simp [hnin]
      | some kv =>
        obtain ⟨k, v⟩ := kv
        obtain ⟨hl, hknin⟩ := splitOnce_some l k v hs
        by_cases hk : k = []
        · subst hk
          subst hl
          simp [utf8Len]
        · by_cases hv : v = []
          · subst hv
            subst hl
            dsimp only
            rw [if_pos (Or.inr (by simp [utf8Len]))]
            constructor
            · intro _
              exact Or.inr (Or.inr (Or.inr ⟨k, hknin, rfl⟩))
            · intro _
              rfl
          · have hk0 : ¬ utf8Len k = 0 := fun h0 => hk ((utf8Len_eq_zero k).mp h0)
            have hv0 : ¬ utf8Len v = 0 := fun h0 => hv ((utf8Len_eq_zero v).mp h0)
            dsimp only
            rw [if_neg (not_or.mpr ⟨hk0, hv0⟩)]
            constructor
            · intro hcontra
              exact Option.noConfusion hcontra
            · intro hr
              exfalso
              rcases hr with hr | hr | hr | hr
              · exact hlen hr
              · exact hr (by rw [hl]; simp)
              · obtain ⟨c, k', rfl⟩ : ∃ c k', k = c :: k' := by
                  cases k with
                  | nil => exact absurd rfl hk
                  | cons c k' => exact ⟨c, k', rfl⟩
                rw [hl] at hr
                simp only [List.cons_append, List.head?_cons, Option.some.injEq] at hr
                exact hknin (by rw [hr]; exact List.mem_cons_self _ _)
              · obtain ⟨k', hk'nin, hlk'⟩ := hr
                have h2 := splitOnce_append k' [] hk'nin
                rw [← hlk'] at h2
                rw [hs] at h2
                simp only [Option.some.injEq, Prod.mk.injEq] at h2
                exact hv h2.2
  · intro k v hnin hk hv hl hlen3
    have hspl : splitOnce l = some (k, v) := by
      rw [hl]
      exact splitOnce_append k v hnin
    rw [parse_field, if_neg (by omega)]
    simp only [hspl]
    rw [if_neg (not_or.mpr ⟨fun h0 => hk ((utf8Len_eq_zero k).mp h0),
      fun h0 => hv ((utf8Len_eq_zero v).mp h0)⟩)]

/-- Witness for the amended C5 theorem: a well-formed header line parses
to its trimmed key and value. -/
theorem parse_field_characterization_witness :
    parse_field ("name = test".toList) = some ("name".toList, "test".toList) := by
  have h := (parse_field_characterization ("name = test".toList)).2 ("name ".toList)
    (" test".toList) (by decide) (by decide) (by decide) (by decide) (by decide)
  rw [h]
  decide
